import Mathlib

/-!
# Verification of a Redis-clone server core

Shallow embedding of the repository's core modules:

* `resp.rs` — the RESP wire-format codec (`Token`, `TryFrom<&str> for Token`,
  `Display for Token`);
* `command.rs` — command interpretation (`Command`, `TryFrom<Token> for Command`);
* `database.rs` — the expiration-aware key-value store (`Value`, `Database`);
* `server.rs` — the dispatcher (`Server::exec`).

Rust strings are modelled as `List Char`; `Instant`/`Duration` as `Nat`
timestamps and millisecond counts; fallible operations as `Except`; a Rust
panic (`unwrap` on an `Err`) as a distinguished error value.
-/

namespace RedisClone

/-- Rust `String` / `&str`, modelled as a list of characters. -/
abbrev Str := List Char

/-- Convenience: a Lean string literal as a `Str`. -/
def strOf (s : String) : Str := s.data

/-- From `resp.rs`: `pub const CRLF: &str = "\r\n"`. -/
def crlf : Str := ['\r', '\n']

/-- Rust `str::split("\r\n")`: split on each non-overlapping occurrence of
CRLF, scanning left to right. `splitCRLF "" = [""]` and a trailing separator
produces a trailing empty piece, exactly as in Rust. -/
def splitCRLF : Str → List Str
  | [] => [[]]
  | [c] => [[c]]
  | c₁ :: c₂ :: rest =>
    if c₁ = '\r' ∧ c₂ = '\n' then
      [] :: splitCRLF rest
    else
      match splitCRLF (c₂ :: rest) with
      | [] => [[c₁]]
      | p :: ps => (c₁ :: p) :: ps

/-- Rust `str::contains("\r\n")`. -/
def hasCRLF : Str → Bool
  | [] => false
  | [_] => false
  | c₁ :: c₂ :: rest => (c₁ == '\r' && c₂ == '\n') || hasCRLF (c₂ :: rest)

/-- Rust `str::starts_with(c)` (false on the empty string). -/
def startsWith (c : Char) : Str → Bool
  | [] => false
  | d :: _ => d == c

/-- Rust `str::trim_matches('\0')`: strip leading and trailing NUL characters. -/
def trimNulls (s : Str) : Str :=
  ((s.dropWhile (· == '\x00')).reverse.dropWhile (· == '\x00')).reverse

/-- From `resp.rs`: `enum ParseError { IncompleteMessage, UnknownType(char) }`. -/
inductive ParseError where
  | incompleteMessage : ParseError
  | unknownType : Char → ParseError
deriving DecidableEq, Repr

/-- From `resp.rs`: `enum Token { SimpleString { data }, BulkString { data },
Array { tokens } }`. -/
inductive Token where
  | simpleString : Str → Token
  | bulkString : Str → Token
  | array : List Token → Token
deriving Repr

/-- The `while let Some(str) = parts.next()` loop of
`impl TryFrom<&str> for Token`: a `$` line takes the *next* part verbatim as a
bulk string's data (failing with `IncompleteMessage` when there is none), a
`+` line yields a simple string of its remainder, and any other leading
character aborts with `UnknownType`. -/
def parseTokens : List Str → Except ParseError (List Token)
  | [] => .ok []
  | p :: rest =>
    match p with
    | [] => .error .incompleteMessage
    | c :: cs =>
      if c = '$' then
        match rest with
        | [] => .error .incompleteMessage
        | next :: rest' =>
          match parseTokens rest' with
          | .error e => .error e
          | .ok ts => .ok (.bulkString next :: ts)
      else if c = '+' then
        match parseTokens rest with
        | .error e => .error e
        | .ok ts => .ok (.simpleString cs :: ts)
      else .error (.unknownType c)

/-- The closure of the decoder's
`.filter(|part| !part.is_empty() && !part.starts_with(ARRAY_START))`. -/
def keepPart (p : Str) : Bool := !p.isEmpty && !startsWith '*' p

/-- From `resp.rs`, `impl TryFrom<&str> for Token`: trim NUL padding, remember
whether the input starts with `*`, split on CRLF, drop empty parts and every
part starting with `*`, run the token loop, then reassemble exactly as the
final `match (tokens.len(), is_array)` does. -/
def Token.tryFrom (s : Str) : Except ParseError Token :=
  let s' := trimNulls s
  let isArray := startsWith '*' s'
  let parts := (splitCRLF s').filter keepPart
  match parseTokens parts with
  | .error e => .error e
  | .ok tokens =>
    match tokens, isArray with
    | [], _ => .ok (.array [])
    | ts@(_ :: _), true => .ok (.array ts)
    | t :: _, false => .ok t

/-- The decimal rendering of a `usize` by Rust's `{}` formatting, as used in
`write!(f, "${len}...")` and `write!(f, "*{count}...")`. -/
def natDecimal (n : Nat) : Str := Nat.toDigits 10 n

mutual

/-- From `resp.rs`, `impl Display for Token`:
`SimpleString` → `+<data>\r\n`; `BulkString` → `$<len>\r\n<data>\r\n`;
`Array` → `*<count>\r\n` followed by each encoded element. -/
def Token.encode : Token → Str
  | .simpleString d => '+' :: (d ++ crlf)
  | .bulkString d => '$' :: (natDecimal d.length ++ crlf ++ d ++ crlf)
  | .array ts => '*' :: (natDecimal ts.length ++ crlf ++ Token.encodeList ts)

/-- The `for token in tokens.iter() { write!(f, "{token}")? }` loop. -/
def Token.encodeList : List Token → Str
  | [] => []
  | t :: ts => Token.encode t ++ Token.encodeList ts

end

/-- A token that is not an `Array`. -/
def Token.isLeaf : Token → Bool
  | .array _ => false
  | _ => true

/-- No `Array` nested inside an `Array`. -/
def Token.isFlat : Token → Bool
  | .array ts => ts.all Token.isLeaf
  | t => t.isLeaf

/-- A leaf token whose encoding survives the decoder's CRLF splitting and
`*`/empty-part filtering intact. -/
def leafGood : Token → Bool
  | .simpleString d => !hasCRLF d
  | .bulkString d => !hasCRLF d && !d.isEmpty && !startsWith '*' d
  | .array _ => false

/-- Tokens for which the round-trip law holds: good leaves, or an array
(of any length) of good leaves. -/
def Token.wellFormed : Token → Bool
  | .array ts => ts.all leafGood
  | t => leafGood t

/-- The CRLF-separated parts a good leaf contributes to its encoding. -/
def leafParts : Token → List Str
  | .simpleString d => [('+' :: d)]
  | .bulkString d => [('$' :: natDecimal d.length), d]
  | .array _ => []

/-- From `resp.rs`, `Token::extract`: the contained string of a `SimpleString` or
`BulkString`, `none` for an `Array`. `command.rs` matches the patterns
`Some(SimpleString { data } | BulkString { data })` on optional tokens, which
is exactly `Option.bind · extract`. -/
def Token.extract : Token → Option Str
  | .simpleString data => some data
  | .bulkString data => some data
  | .array _ => none

/-- Rust `str::to_ascii_lowercase`: `Char.toLower` maps exactly the ASCII
range `A`–`Z`. -/
def lowerAscii (s : Str) : Str := s.map Char.toLower

/-- Rust `str::parse::<u64>`: an optional leading `+`, then one or more ASCII
digits, and the value must fit in 64 bits; anything else is `Err`. -/
def parseU64 (s : Str) : Option Nat :=
  let digits : Str :=
    match s with
    | '+' :: rest => rest
    | _ => s
  if digits.isEmpty then none
  else if digits.all Char.isDigit then
    let n := digits.foldl (fun acc c => acc * 10 + (c.toNat - '0'.toNat)) 0
    if n < 2 ^ 64 then some n else none
  else none

/-- From `database.rs`: `struct Value { data, ttl, created }`. `Duration` and
`Instant` become millisecond counts and abstract timestamps. -/
structure Value where
  data : Str
  ttl : Option Nat
  created : Nat
deriving Repr, DecidableEq

/-- From `command.rs`: `enum Command { Ping, Echo, Set, Get }`. -/
inductive Command where
  | ping : Command
  | echo : Str → Command
  | set : Str → Value → Command
  | get : Str → Command
deriving Repr, DecidableEq

/-- The failure modes of `impl TryFrom<Token> for Command`:
`invalidInput` is the `io::Error(InvalidInput, "Unknown or unimplemented
command")` value built at the top of `try_from`; `panicked` models a Rust
panic — the one reachable panic is `ttl.parse::<u64>().unwrap()` on an
unparseable TTL string. -/
inductive CmdError where
  | invalidInput : CmdError
  | panicked : CmdError
deriving Repr, DecidableEq

/-- From `command.rs`, `impl TryFrom<Token> for Command`. `Instant::now()` inside
the `Set` arm becomes the explicit `now` argument. -/
def Command.tryFrom (now : Nat) : Token → Except CmdError Command
  | .simpleString data | .bulkString data =>
    if lowerAscii data = strOf "ping" then .ok .ping else .error .invalidInput
  | .array tokens =>
    match tokens.head?.bind Token.extract with
    | none => .error .invalidInput
    | some data =>
      let lowered := lowerAscii data
      if lowered = strOf "ping" then .ok .ping
      else if lowered = strOf "echo" then
        match tokens[1]?.bind Token.extract with
        | some message => .ok (.echo message)
        | none => .error .invalidInput
      else if lowered = strOf "get" then
        match tokens[1]?.bind Token.extract with
        | some key => .ok (.get key)
        | none => .error .invalidInput
      else if lowered = strOf "set" then
        match tokens[1]?.bind Token.extract, tokens[2]?.bind Token.extract with
        | some key, some value =>
          match tokens[4]?.bind Token.extract with
          | some ttlStr =>
            match parseU64 ttlStr with
            | some ms => .ok (.set key ⟨value, some ms, now⟩)
            | none => .error .panicked
          | none => .ok (.set key ⟨value, none, now⟩)
        | _, _ => .error .invalidInput
      else .error .invalidInput

/-- From `database.rs`: `enum Error { KeyNotFound, Expired }`. -/
inductive DbError where
  | keyNotFound : DbError
  | expired : DbError
deriving Repr, DecidableEq

/-- From `database.rs`: `pub type Key = String`. -/
abbrev Key := Str

/-- From `database.rs`: `struct Database { storage: HashMap<Key, Value> }`,
modelled extensionally as its lookup function. -/
def Database := Key → Option Value

/-- From `database.rs`, `Database::new()`: the empty map. -/
def Database.new : Database := fun _ => none

/-- From `database.rs`, `Database::get`: the borrowed `&self` receiver means the
map itself is read-only here; `Instant::now()` becomes the explicit `now`
argument, and `now.duration_since(value.created)` is the saturating
difference `now - value.created` (`Nat` subtraction saturates exactly like
`Instant::duration_since`). -/
def Database.get (db : Database) (key : Key) (now : Nat) : Except DbError Value :=
  match db key with
  | none => .error .keyNotFound
  | some value =>
    match value.ttl with
    | some ttl =>
      if now - value.created > ttl then .error .expired else .ok value
    | none => .ok value

/-- From `database.rs`, `Database::set`: `self.storage.insert(key, value)`. -/
def Database.set (db : Database) (key : Key) (value : Value) : Database :=
  fun k => if k = key then some value else db k

/-- From `server.rs`, `Server::exec`, restricted to the four commands of
`command.rs`: each arm produces the possibly-updated database and the exact
byte string written to the client socket. -/
def execCommand (db : Database) (now : Nat) : Command → Database × Str
  | .ping => (db, strOf "+PONG\r\n")
  | .echo message => (db, '+' :: (message ++ crlf))
  | .set key value => (db.set key value, strOf "+OK\r\n")
  | .get key =>
    let response : Str :=
      match db.get key now with
      | .ok value => '+' :: value.data
      | .error .keyNotFound => strOf "-Key not found"
      | .error .expired => strOf "$-1"
    (db, response ++ crlf)

/-! ## Helper lemmas about the codec -/

theorem digitChar_ne_cr (n : Nat) (h : n < 16) : Nat.digitChar n ≠ '\r' := by
  interval_cases n <;> decide

theorem toDigitsCore_cr : ∀ (fuel n : Nat) (ds : List Char),
    (∀ c ∈ ds, c ≠ '\r') → ∀ c ∈ Nat.toDigitsCore 10 fuel n ds, c ≠ '\r'
  | 0, n, ds, h => by simpa [Nat.toDigitsCore] using h
  | fuel+1, n, ds, h => by
    have hds : ∀ c ∈ Nat.digitChar (n % 10) :: ds, c ≠ '\r' := by
      intro c hc
      rcases List.mem_cons.mp hc with h1 | h1
      · exact h1 ▸ digitChar_ne_cr _ (by omega)
      · exact h c h1
    intro c hc
    simp only [Nat.toDigitsCore] at hc
    by_cases h10 : n / 10 = 0
    · rw [if_pos h10] at hc
      exact hds c hc
    · rw [if_neg h10] at hc
      exact toDigitsCore_cr fuel (n / 10) (Nat.digitChar (n % 10) :: ds) hds c hc

theorem cr_not_mem_natDecimal (n : Nat) : '\r' ∉ natDecimal n := fun h =>
  toDigitsCore_cr (n+1) n [] (by simp) '\r'
    (by simpa [natDecimal, Nat.toDigits] using h) rfl

theorem hasCRLF_cons (c : Char) (s : Str) (h : c ≠ '\r') :
    hasCRLF (c :: s) = hasCRLF s := by
  cases s with
  | nil => rfl
  | cons d t => simp [hasCRLF, h]

theorem hasCRLF_of_cr_not_mem : ∀ s : Str, '\r' ∉ s → hasCRLF s = false
  | [], _ => rfl
  | [_], _ => rfl
  | c₁ :: c₂ :: rest, h => by
    have h1 : c₁ ≠ '\r' := fun e => h (e ▸ List.mem_cons_self c₁ _)
    have h2 : '\r' ∉ c₂ :: rest := fun m => h (List.mem_cons_of_mem _ m)
    simp [hasCRLF, h1, hasCRLF_of_cr_not_mem (c₂ :: rest) h2]

theorem splitCRLF_of_hasCRLF_false : ∀ s : Str, hasCRLF s = false → splitCRLF s = [s]
  | [], _ => rfl
  | [_], _ => rfl
  | c₁ :: c₂ :: rest, h => by
    rw [hasCRLF] at h
    simp only [Bool.or_eq_false_iff, Bool.and_eq_false_iff, beq_eq_false_iff_ne] at h
    rw [splitCRLF, if_neg (fun hc => h.1.elim (fun h' => h' hc.1) (fun h' => h' hc.2)),
      splitCRLF_of_hasCRLF_false (c₂ :: rest) h.2]

theorem splitCRLF_append : ∀ (a : Str), hasCRLF a = false →
    ∀ b, splitCRLF (a ++ '\r' :: '\n' :: b) = a :: splitCRLF b
  | [], _, b => by rw [List.nil_append, splitCRLF, if_pos ⟨rfl, rfl⟩]
  | [c], h, b => by
    rw [List.singleton_append, splitCRLF, if_neg (by rintro ⟨-, h2⟩; exact absurd h2 (by decide)),
      splitCRLF, if_pos ⟨rfl, rfl⟩]
  | c :: d :: a', h, b => by
    rw [hasCRLF] at h
    simp only [Bool.or_eq_false_iff, Bool.and_eq_false_iff, beq_eq_false_iff_ne] at h
    have ih := splitCRLF_append (d :: a') h.2 b
    rw [List.cons_append, List.cons_append, splitCRLF,
      if_neg (fun hc => h.1.elim (fun h' => h' hc.1) (fun h' => h' hc.2))]
    rw [List.cons_append] at ih
    rw [ih]

theorem keepPart_cons (c : Char) (cs : Str) : keepPart (c :: cs) = !(c == '*') := by
  simp [keepPart, startsWith]

theorem keepPart_nil : keepPart [] = false := rfl

theorem parseTokens_plus (d : Str) (rest : List Str) :
    parseTokens (('+' :: d) :: rest) =
      match parseTokens rest with
      | .error e => .error e
      | .ok ts => .ok (.simpleString d :: ts) := by
  cases rest <;> simp [parseTokens]

theorem parseTokens_dollar (x next : Str) (rest : List Str) :
    parseTokens (('$' :: x) :: next :: rest) =
      match parseTokens rest with
      | .error e => .error e
      | .ok ts => .ok (.bulkString next :: ts) := by
  simp [parseTokens]

theorem trimNulls_eq_self (s : Str) (h1 : s.head? ≠ some '\x00')
    (h2 : s.getLast? ≠ some '\x00') : trimNulls s = s := by
  cases s with
  | nil => rfl
  | cons c cs =>
    have hc : ¬ ((c == '\x00') = true) := by
      simp only [List.head?_cons, ne_eq, Option.some.injEq] at h1
      simp [h1]
    unfold trimNulls
    rw [List.dropWhile_cons, if_neg hc]
    cases hr : (c :: cs).reverse with
    | nil => simp at hr
    | cons d ds =>
      have hd : ¬ ((d == '\x00') = true) := by
        have hg : (c :: cs).getLast? = some d := by
          rw [← List.head?_reverse, hr, List.head?_cons]
        simp only [hg, ne_eq, Option.some.injEq] at h2
        simp [h2]
      rw [List.dropWhile_cons, if_neg hd, ← hr, List.reverse_reverse]

theorem encodeList_ends : ∀ ts : List Token, ts.all leafGood = true →
    ts = [] ∨ ∃ u, Token.encodeList ts = u ++ ['\n']
  | [], _ => Or.inl rfl
  | t :: ts, h => by
    right
    rw [List.all_cons, Bool.and_eq_true] at h
    have hhead : ∃ v, Token.encode t = v ++ ['\n'] := by
      cases t with
      | simpleString d =>
        exact ⟨'+' :: (d ++ ['\r']), by simp [Token.encode, crlf]⟩
      | bulkString d =>
        exact ⟨'$' :: (natDecimal d.length ++ ['\r', '\n'] ++ d ++ ['\r']),
          by simp [Token.encode, crlf]⟩
      | array us => simp [leafGood] at h
    rcases hhead with ⟨v, hv⟩
    rcases encodeList_ends ts h.2 with rfl | ⟨u, hu⟩
    · exact ⟨v, by simp [Token.encodeList, hv]⟩
    · exact ⟨Token.encode t ++ u, by simp [Token.encodeList, hu]⟩

theorem filter_splitCRLF_encodeList : ∀ ts : List Token, ts.all leafGood = true →
    ∀ b : Str,
    (splitCRLF (Token.encodeList ts ++ b)).filter keepPart
      = (ts.map leafParts).flatten ++ (splitCRLF b).filter keepPart
  | [], _, b => by simp [Token.encodeList]
  | t :: ts, h, b => by
    rw [List.all_cons, Bool.and_eq_true] at h
    have ih := filter_splitCRLF_encodeList ts h.2 b
    cases t with
    | simpleString d =>
      have hd : hasCRLF d = false := by
        have h1 := h.1
        simp [leafGood] at h1
        exact h1
      have hshape : Token.encodeList (Token.simpleString d :: ts) ++ b
          = ('+' :: d) ++ '\r' :: '\n' :: (Token.encodeList ts ++ b) := by
        simp [Token.encodeList, Token.encode, crlf]
      rw [hshape, splitCRLF_append _ (by rw [hasCRLF_cons _ _ (by decide)]; exact hd) _,
        List.filter_cons_of_pos (by simp [keepPart_cons]), ih]
      simp [leafParts]
    | bulkString d =>
      have h1 := h.1
      simp only [leafGood, Bool.and_eq_true, Bool.not_eq_true'] at h1
      have hd : hasCRLF d = false := h1.1.1
      have hnd : hasCRLF ('$' :: natDecimal d.length) = false := by
        rw [hasCRLF_cons _ _ (by decide)]
        exact hasCRLF_of_cr_not_mem _ (cr_not_mem_natDecimal _)
      have hshape : Token.encodeList (Token.bulkString d :: ts) ++ b
          = ('$' :: natDecimal d.length)
              ++ '\r' :: '\n' :: (d ++ '\r' :: '\n' :: (Token.encodeList ts ++ b)) := by
        simp [Token.encodeList, Token.encode, crlf]
      have hkeepd : keepPart d = true := by
        simp [keepPart, h1.1.2, h1.2]
      rw [hshape, splitCRLF_append _ hnd _, splitCRLF_append _ hd _,
        List.filter_cons_of_pos (by simp [keepPart_cons]),
        List.filter_cons_of_pos hkeepd, ih]
      simp [leafParts]
    | array us =>
      have h1 := h.1
      simp [leafGood] at h1

theorem parseTokens_leafJoin : ∀ ts : List Token, ts.all leafGood = true →
    ∀ rest : List Str,
    parseTokens (((ts.map leafParts).flatten) ++ rest)
      = match parseTokens rest with
        | .error e => .error e
        | .ok us => .ok (ts ++ us)
  | [], _, rest => by cases hr : parseTokens rest <;> simp [hr]
  | t :: ts, h, rest => by
    rw [List.all_cons, Bool.and_eq_true] at h
    have ih := parseTokens_leafJoin ts h.2 rest
    cases t with
    | simpleString d =>
      have hshape : (((Token.simpleString d :: ts).map leafParts).flatten) ++ rest
          = ('+' :: d) :: (((ts.map leafParts).flatten) ++ rest) := by
        simp [leafParts]
      rw [hshape, parseTokens_plus, ih]
      cases hr : parseTokens rest <;> simp
    | bulkString d =>
      have hshape : (((Token.bulkString d :: ts).map leafParts).flatten) ++ rest
          = ('$' :: natDecimal d.length) :: d :: (((ts.map leafParts).flatten) ++ rest) := by
        simp [leafParts]
      rw [hshape, parseTokens_dollar, ih]
      cases hr : parseTokens rest <;> simp
    | array us =>
      have h1 := h.1
      simp [leafGood] at h1

theorem trimNulls_encode (t : Token) (h : t.wellFormed = true) :
    trimNulls (Token.encode t) = Token.encode t := by
  have hhead : ∃ c x, Token.encode t = c :: x ∧ c ≠ '\x00' := by
    cases t with
    | simpleString d =>
      exact ⟨'+', d ++ crlf, by simp [Token.encode], by decide⟩
    | bulkString d =>
      exact ⟨'$', natDecimal d.length ++ crlf ++ d ++ crlf, by simp [Token.encode], by decide⟩
    | array ts =>
      exact ⟨'*', natDecimal ts.length ++ crlf ++ Token.encodeList ts,
        by simp [Token.encode], by decide⟩
  have hlast : ∃ u, Token.encode t = u ++ ['\n'] := by
    cases t with
    | simpleString d =>
      exact ⟨'+' :: (d ++ ['\r']), by simp [Token.encode, crlf]⟩
    | bulkString d =>
      exact ⟨'$' :: (natDecimal d.length ++ ['\r', '\n'] ++ d ++ ['\r']),
        by simp [Token.encode, crlf]⟩
    | array ts =>
      rcases encodeList_ends ts (by simpa [Token.wellFormed] using h) with hnil | ⟨u, hu⟩
      · exact ⟨'*' :: (natDecimal ts.length ++ ['\r']),
          by simp [Token.encode, crlf, hnil, Token.encodeList]⟩
      · exact ⟨'*' :: (natDecimal ts.length ++ ['\r', '\n'] ++ u),
          by simp [Token.encode, crlf, hu]⟩
  rcases hhead with ⟨c, x, hx, hc⟩
  rcases hlast with ⟨u, hu⟩
  apply trimNulls_eq_self
  · rw [hx, List.head?_cons]
    exact fun e => hc (by injection e)
  · rw [hu, List.getLast?_concat]
    simp

/-- C1 (amended). The round-trip law `Decode(Encode(t)) = t` holds for every
well-formed token: simple strings whose data contains no CRLF; bulk strings
whose data is nonempty, contains no CRLF and does not start with `*`; and
arrays (of any length, including empty) of such leaves. Outside this class
the law fails — see the counterexample theorem. -/
theorem decode_encode_roundtrip_wellFormed (t : Token) (h : t.wellFormed = true) :
    Token.tryFrom (Token.encode t) = .ok t := by
  have htrim := trimNulls_encode t h
  cases t with
  | simpleString d =>
    have hd : hasCRLF d = false := by
      simpa [Token.wellFormed, leafGood] using h
    have hshape : Token.encode (Token.simpleString d)
        = ('+' :: d) ++ '\r' :: '\n' :: ([] : Str) := by
      simp [Token.encode, crlf]
    simp only [Token.tryFrom, htrim]
    rw [hshape, splitCRLF_append _ (by rw [hasCRLF_cons _ _ (by decide)]; exact hd),
      List.filter_cons_of_pos (by simp [keepPart_cons])]
    simp [parseTokens, startsWith, splitCRLF, keepPart]
  | bulkString d =>
    simp only [Token.wellFormed, leafGood, Bool.and_eq_true, Bool.not_eq_true'] at h
    have hnd : hasCRLF ('$' :: natDecimal d.length) = false := by
      rw [hasCRLF_cons _ _ (by decide)]
      exact hasCRLF_of_cr_not_mem _ (cr_not_mem_natDecimal _)
    have hshape : Token.encode (Token.bulkString d)
        = ('$' :: natDecimal d.length) ++ '\r' :: '\n' :: (d ++ '\r' :: '\n' :: ([] : Str)) := by
      simp [Token.encode, crlf]
    simp only [Token.tryFrom, htrim]
    rw [hshape, splitCRLF_append _ hnd, splitCRLF_append _ h.1.1,
      List.filter_cons_of_pos (by simp [keepPart_cons]),
      List.filter_cons_of_pos (by simp [keepPart, h.1.2, h.2]),
      parseTokens_dollar]
    simp [parseTokens, startsWith, splitCRLF, keepPart]
  | array ts =>
    have hts : ts.all leafGood = true := by simpa [Token.wellFormed] using h
    have hnd : hasCRLF ('*' :: natDecimal ts.length) = false := by
      rw [hasCRLF_cons _ _ (by decide)]
      exact hasCRLF_of_cr_not_mem _ (cr_not_mem_natDecimal _)
    have hshape : Token.encode (Token.array ts)
        = ('*' :: natDecimal ts.length) ++ '\r' :: '\n' :: (Token.encodeList ts ++ []) := by
      simp [Token.encode, crlf]
    simp only [Token.tryFrom, htrim]
    rw [hshape, splitCRLF_append _ hnd,
      List.filter_cons_of_neg (by simp [keepPart_cons]),
      filter_splitCRLF_encodeList ts hts [],
      show (splitCRLF ([] : Str)).filter keepPart = [] from rfl,
      parseTokens_leafJoin ts hts []]
    cases ts with
    | nil => simp [parseTokens, startsWith]
    | cons a as => simp [parseTokens, startsWith]

theorem decode_encode_roundtrip_witness :
    Token.wellFormed (.array [.simpleString (strOf "OK"), .bulkString (strOf "hey")]) = true ∧
    Token.tryFrom (Token.encode (.array [.simpleString (strOf "OK"), .bulkString (strOf "hey")]))
      = .ok (.array [.simpleString (strOf "OK"), .bulkString (strOf "hey")]) :=
  ⟨rfl, decode_encode_roundtrip_wellFormed _ rfl⟩

/-- C1 counterexample: the empty bulk string is a legally constructed token —
`resp.rs` itself documents its encoding as `$0\r\n\r\n` — yet decoding that
encoding returns `IncompleteMessage`, because the empty payload line is
dropped by the decoder's filter, so `Decode(Encode(t)) ≠ t` for it. -/
theorem roundtrip_fails_on_empty_bulkString :
    Token.encode (.bulkString []) = strOf "$0\r\n\r\n" ∧
    Token.tryFrom (strOf "$0\r\n\r\n") = .error .incompleteMessage :=
  ⟨rfl, rfl⟩

theorem isFlat_of_isLeaf (t : Token) (h : t.isLeaf = true) : t.isFlat = true := by
  cases t with
  | simpleString d => rfl
  | bulkString d => rfl
  | array ts => simp [Token.isLeaf] at h

theorem parseTokens_leaves : ∀ (ps : List Str) (ts : List Token),
    parseTokens ps = .ok ts → ∀ t ∈ ts, t.isLeaf = true
  | [], ts, h => by
    simp only [parseTokens, Except.ok.injEq] at h
    subst h
    intro t ht
    simp at ht
  | [] :: rest, ts, h => by
    simp [parseTokens] at h
  | (c :: cs) :: rest, ts, h => by
    rcases rest with - | ⟨next, rest'⟩
    · by_cases hc : c = '$'
      · simp [parseTokens, hc] at h
      · by_cases hc2 : c = '+'
        · simp only [parseTokens, if_neg hc, if_pos hc2, Except.ok.injEq] at h
          subst h
          intro t ht
          rcases List.mem_cons.mp ht with rfl | ht'
          · rfl
          · simp at ht'
        · simp [parseTokens, hc, hc2] at h
    · by_cases hc : c = '$'
      · cases hp : parseTokens rest' with
        | error e => simp [parseTokens, hc, hp] at h
        | ok us =>
          simp only [parseTokens, if_pos hc, hp, Except.ok.injEq] at h
          subst h
          intro t ht
          rcases List.mem_cons.mp ht with rfl | ht'
          · rfl
          · exact parseTokens_leaves rest' us hp t ht'
      · by_cases hc2 : c = '+'
        · cases hp : parseTokens (next :: rest') with
          | error e => simp [parseTokens, hc, hc2, hp] at h
          | ok us =>
            simp only [parseTokens, if_neg hc, if_pos hc2, hp, Except.ok.injEq] at h
            subst h
            intro t ht
            rcases List.mem_cons.mp ht with rfl | ht'
            · rfl
            · exact parseTokens_leaves (next :: rest') us hp t ht'
        · simp [parseTokens, hc, hc2] at h

/-- C10. A successfully decoded token never contains an `Array` nested inside
an `Array`: the token loop only ever pushes `SimpleString`/`BulkString`
values (every `*`-line was filtered out beforehand), so the result is a
single such leaf or a flat `Array` of them. -/
theorem decode_result_isFlat (s : Str) (t : Token) (h : Token.tryFrom s = .ok t) :
    t.isFlat = true := by
  simp only [Token.tryFrom] at h
  cases hp : parseTokens ((splitCRLF (trimNulls s)).filter keepPart) with
  | error e => rw [hp] at h; simp at h
  | ok tokens =>
    rw [hp] at h
    have hleaves := parseTokens_leaves _ _ hp
    rcases tokens with - | ⟨a, as⟩
    · simp only [Except.ok.injEq] at h
      rw [← h]
      rfl
    · cases hb : startsWith '*' (trimNulls s) <;> rw [hb] at h <;>
        simp only [Except.ok.injEq] at h <;> rw [← h]
      · exact isFlat_of_isLeaf a (hleaves a (List.mem_cons_self a as))
      · simpa [Token.isFlat, List.all_eq_true] using hleaves

theorem decode_result_isFlat_witness :
    Token.isFlat (.array [.bulkString (strOf "ECHO"), .simpleString (strOf "hey")]) = true :=
  decode_result_isFlat (strOf "*2\r\n$4\r\nECHO\r\n+hey\r\n")
    (.array [.bulkString (strOf "ECHO"), .simpleString (strOf "hey")]) rfl

theorem parseTokens_error_shape : ∀ ps : List Str,
    (∀ p ∈ ps, keepPart p = true) → ∀ e, parseTokens ps = .error e →
    e = .incompleteMessage ∨ ∃ c, e = .unknownType c ∧ c ≠ '+' ∧ c ≠ '$' ∧ c ≠ '*'
  | [], _, e, h => by simp [parseTokens] at h
  | [] :: rest, hk, e, h => by
    have := hk [] (List.mem_cons_self _ _)
    simp [keepPart] at this
  | (c :: cs) :: rest, hk, e, h => by
    have hstar : c ≠ '*' := by
      have := hk (c :: cs) (List.mem_cons_self _ _)
      simp only [keepPart, startsWith, Bool.and_eq_true, Bool.not_eq_true',
        beq_eq_false_iff_ne] at this
      exact this.2
    rcases rest with - | ⟨next, rest'⟩
    · by_cases hc : c = '$'
      · simp only [parseTokens, if_pos hc, Except.error.injEq] at h
        exact Or.inl h.symm
      · by_cases hc2 : c = '+'
        · simp [parseTokens, hc, hc2] at h
        · simp only [parseTokens, if_neg hc, if_neg hc2, Except.error.injEq] at h
          exact Or.inr ⟨c, h.symm, hc2, hc, hstar⟩
    · by_cases hc : c = '$'
      · cases hp : parseTokens rest' with
        | error e' =>
          simp only [parseTokens, if_pos hc, hp, Except.error.injEq] at h
          subst h
          exact parseTokens_error_shape rest'
            (fun p hp' => hk p (List.mem_cons_of_mem _ (List.mem_cons_of_mem _ hp'))) e' hp
        | ok us => simp [parseTokens, hc, hp] at h
      · by_cases hc2 : c = '+'
        · cases hp : parseTokens (next :: rest') with
          | error e' =>
            simp only [parseTokens, if_neg hc, if_pos hc2, hp, Except.error.injEq] at h
            subst h
            exact parseTokens_error_shape (next :: rest')
              (fun p hp' => hk p (List.mem_cons_of_mem _ hp')) e' hp
          | ok us => simp [parseTokens, hc, hc2, hp] at h
        · simp only [parseTokens, if_neg hc, if_neg hc2, Except.error.injEq] at h
          exact Or.inr ⟨c, h.symm, hc2, hc, hstar⟩

/-- C4 (amended). Decode fails exactly with `IncompleteMessage` (the input
ends before an expected line, e.g. a bulk-string length line with no payload
line) or `UnknownType c` for a line whose leading byte `c` is none of
`+ $ *`; there is no error for a malformed bulk-string length field, because
the length is never parsed at all. -/
theorem decode_error_classification :
    (∀ (s : Str) (e : ParseError), Token.tryFrom s = .error e →
      e = .incompleteMessage ∨ ∃ c, e = .unknownType c ∧ c ≠ '+' ∧ c ≠ '$' ∧ c ≠ '*') ∧
    Token.tryFrom (strOf "$5\r\n") = .error .incompleteMessage ∧
    Token.tryFrom (strOf "-x\r\n") = .error (.unknownType '-') := by
  refine ⟨?_, rfl, rfl⟩
  intro s e h
  simp only [Token.tryFrom] at h
  cases hp : parseTokens ((splitCRLF (trimNulls s)).filter keepPart) with
  | error e' =>
    rw [hp] at h
    simp only [Except.error.injEq] at h
    exact h ▸ parseTokens_error_shape _
      (fun p hp' => (List.mem_filter.mp hp').2) e' hp
  | ok tokens =>
    rw [hp] at h
    rcases tokens with - | ⟨a, as⟩ <;> cases hb : startsWith '*' (trimNulls s) <;>
      rw [hb] at h <;> simp at h

theorem decode_error_classification_witness :
    (.unknownType '-' : ParseError) = .incompleteMessage ∨
    ∃ c, (.unknownType '-' : ParseError) = .unknownType c ∧ c ≠ '+' ∧ c ≠ '$' ∧ c ≠ '*' :=
  decode_error_classification.1 (strOf "-x\r\n") (.unknownType '-') rfl

/-- C4 counterexample: a malformed (non-numeric) bulk-string length is not an
error — the decoder never parses the length line, so `$abc` followed by a
payload line decodes successfully to that payload. -/
theorem decode_malformed_length_no_error :
    Token.tryFrom (strOf "$abc\r\nhello\r\n") = .ok (.bulkString (strOf "hello")) := rfl

/-- C8. An input that is empty or consists solely of NUL bytes decodes to the
empty `Array` token (a no-op frame), never an error: after trimming the NUL
padding nothing remains, the part list is empty, and the final match maps
zero tokens to `Array []`. -/
theorem decode_all_nul_empty_array (s : Str) (h : ∀ c ∈ s, c = '\x00') :
    Token.tryFrom s = .ok (.array []) := by
  have ht : trimNulls s = [] := by
    unfold trimNulls
    have hdw : s.dropWhile (· == '\x00') = [] := by
      rw [List.dropWhile_eq_nil_iff]
      intro x hx
      simp [h x hx]
    rw [hdw]
    rfl
  simp only [Token.tryFrom, ht]
  rfl

theorem decode_all_nul_empty_array_witness :
    Token.tryFrom (strOf "\x00\x00\x00") = .ok (.array []) :=
  decode_all_nul_empty_array (strOf "\x00\x00\x00") (by decide)

/-- C2. After `Set(k, v)` with ttl `d`, a `Get(k)` observed at most `d` after
the value's creation instant returns `Ok` with data `v`, and a `Get(k)`
observed strictly more than `d` after creation returns `Expired`. Expiration
is computed lazily at read time from `now - created` — there is no sweeper. -/
theorem set_get_ttl (db : Database) (k : Key) (d : Str) (ttl created now : Nat) :
    (now - created ≤ ttl →
      (db.set k ⟨d, some ttl, created⟩).get k now = .ok ⟨d, some ttl, created⟩) ∧
    (now - created > ttl →
      (db.set k ⟨d, some ttl, created⟩).get k now = .error .expired) := by
  constructor
  · intro h
    simp [Database.get, Database.set, Nat.not_lt.mpr h]
  · intro h
    simp [Database.get, Database.set, h]

theorem set_get_ttl_witness :
    (Database.new.set (strOf "k") ⟨strOf "v", some 10, 0⟩).get (strOf "k") 10
        = .ok ⟨strOf "v", some 10, 0⟩ ∧
    (Database.new.set (strOf "k") ⟨strOf "v", some 10, 0⟩).get (strOf "k") 11
        = .error .expired :=
  ⟨(set_get_ttl Database.new (strOf "k") (strOf "v") 10 0 10).1 (by decide),
   (set_get_ttl Database.new (strOf "k") (strOf "v") 10 0 11).2 (by decide)⟩

/-- C5. The dispatcher's reply for `Get` is determined by the store result:
`Ok(value)` yields the simple-string reply `+<data>\r\n`, `KeyNotFound`
yields an error-prefixed reply (leading `-`), and `Expired` yields the null
bulk string sentinel `$-1` followed by CRLF; the latter two replies are
distinct, so a never-set key and a timed-out key are distinguishable on the
wire. -/
theorem get_reply_mapping (db : Database) (k : Key) (now : Nat) :
    (∀ v : Value, db.get k now = .ok v →
      (execCommand db now (.get k)).2 = '+' :: (v.data ++ crlf)) ∧
    (db.get k now = .error .keyNotFound →
      (execCommand db now (.get k)).2 = strOf "-Key not found" ++ crlf ∧
      ((execCommand db now (.get k)).2).head? = some '-') ∧
    (db.get k now = .error .expired →
      (execCommand db now (.get k)).2 = strOf "$-1" ++ crlf) ∧
    (strOf "-Key not found" ++ crlf ≠ strOf "$-1" ++ crlf) := by
  refine ⟨?_, ?_, ?_, by decide⟩
  · intro v hv
    simp [execCommand, hv]
  · intro hv
    constructor <;> simp [execCommand, hv, strOf]
  · intro hv
    simp [execCommand, hv]

theorem get_reply_mapping_witness :
    (execCommand (Database.new.set (strOf "k") ⟨strOf "v", some 1, 0⟩) 5
      (.get (strOf "k"))).2 = strOf "$-1" ++ crlf :=
  (get_reply_mapping (Database.new.set (strOf "k") ⟨strOf "v", some 1, 0⟩)
    (strOf "k") 5).2.2.1 rfl

/-- C6. A second `Set` on the same key fully replaces the stored value: after
`Set(k, v₁ with a TTL)` then `Set(k, v₂ with no TTL)`, the map holds exactly
`v₂` with no TTL under `k` (the prior TTL is erased, never merged), all other
keys are untouched, and `Set` is a total operation with no failure case. -/
theorem set_overwrites (db : Database) (k : Key) (d₁ d₂ : Str) (ttl c₁ c₂ : Nat) :
    ((db.set k ⟨d₁, some ttl, c₁⟩).set k ⟨d₂, none, c₂⟩) k = some ⟨d₂, none, c₂⟩ ∧
    (∀ k', k' ≠ k → ((db.set k ⟨d₁, some ttl, c₁⟩).set k ⟨d₂, none, c₂⟩) k' = db k') ∧
    (∀ now, ((db.set k ⟨d₁, some ttl, c₁⟩).set k ⟨d₂, none, c₂⟩).get k now
        = .ok ⟨d₂, none, c₂⟩) := by
  refine ⟨by simp [Database.set], ?_, ?_⟩
  · intro k' hk
    simp [Database.set, hk]
  · intro now
    simp [Database.get, Database.set]

theorem set_overwrites_witness :
    ((Database.new.set (strOf "k") ⟨strOf "a", some 9, 0⟩).set (strOf "k")
      ⟨strOf "b", none, 3⟩) (strOf "j") = Database.new (strOf "j") :=
  (set_overwrites Database.new (strOf "k") (strOf "a") (strOf "b") 9 0 3).2.1
    (strOf "j") (by decide)

/-- C7. `Get` on a key holding no entry returns `KeyNotFound`; the fresh
database holds no entry anywhere, and a `Set` on a different key leaves `k`
without an entry, so a never-set key always yields `KeyNotFound`. A `Set`
with no TTL is returned by `Get` at every later observation time. -/
theorem get_never_set (k : Key) (now : Nat) :
    (∀ db : Database, db k = none → db.get k now = .error .keyNotFound) ∧
    Database.new k = none ∧
    (∀ (db : Database) (k' : Key) (v : Value), k' ≠ k → (db.set k' v) k = db k) ∧
    (∀ (db : Database) (d : Str) (c : Nat),
      (db.set k ⟨d, none, c⟩).get k now = .ok ⟨d, none, c⟩) := by
  refine ⟨?_, rfl, ?_, ?_⟩
  · intro db h
    simp [Database.get, h]
  · intro db k' v hk
    simp [Database.set, Ne.symm hk]
  · intro db d c
    simp [Database.get, Database.set]

theorem get_never_set_witness :
    Database.new.get (strOf "a") 5 = .error .keyNotFound :=
  (get_never_set (strOf "a") 5).1 Database.new rfl

/-- C9. `Get` never mutates the keyspace: executing a `Get` command returns
the database unchanged whatever the outcome — in particular an `Expired`
result does not remove or alter the stored entry, which stays in the map
until overwritten by a later `Set`. -/
theorem get_does_not_mutate (db : Database) (k : Key) (now : Nat) :
    (execCommand db now (.get k)).1 = db ∧ (execCommand db now (.get k)).1 k = db k :=
  ⟨rfl, rfl⟩

/-- C3 counterexample: interpreting a SET whose index-4 string token does not
parse as a `u64` does not succeed with a TTL-less `Set` — the
`ttl.parse::<u64>().unwrap()` call panics. -/
theorem set_unparseable_ttl_counterexample :
    Command.tryFrom 0 (.array [.bulkString (strOf "SET"), .bulkString (strOf "key"),
      .bulkString (strOf "value"), .bulkString (strOf "px"), .bulkString (strOf "abc")])
      = .error .panicked := rfl

/-- C3 (amended). When a SET command's array carries a string token at the
fixed TTL position (index 4) that does not parse as an unsigned 64-bit
integer, interpretation does not succeed and does not fall back to "no TTL":
the code unwraps the failed parse and panics. -/
theorem set_unparseable_ttl_panics (k v ts : Str) (now : Nat)
    (h : parseU64 ts = none) :
    (∀ t₃ : Token, Command.tryFrom now (.array [.bulkString (strOf "SET"),
        .bulkString k, .bulkString v, t₃, .bulkString ts]) = .error .panicked) ∧
    (∀ t₃ : Token, Command.tryFrom now (.array [.bulkString (strOf "SET"),
        .bulkString k, .bulkString v, t₃, .simpleString ts]) = .error .panicked) := by
  constructor <;> intro t₃ <;>
    · show (match parseU64 ts with
        | some ms => Except.ok (Command.set k ⟨v, some ms, now⟩)
        | none => Except.error CmdError.panicked) = Except.error CmdError.panicked
      rw [h]

theorem set_unparseable_ttl_panics_witness :
    Command.tryFrom 2 (.array [.bulkString (strOf "SET"), .bulkString (strOf "j"),
      .bulkString (strOf "w"), .bulkString (strOf "px"), .bulkString (strOf "10s")])
      = .error .panicked :=
  (set_unparseable_ttl_panics (strOf "j") (strOf "w") (strOf "10s") 2 rfl).1
    (.bulkString (strOf "px"))

end RedisClone
